import Mathlib

/-!
Shallow embedding of `src/vm.rs`: a register-based bytecode virtual machine.

Modelling conventions:
* `U256` values are `Nat`s; the Rust `U256` operations that wrap do so
  modulo `2 ^ 256` (`u256Size`).
* A 20-byte address is the list of its bytes (`Addr`).
* A fallible Rust computation is an `Outcome`: `ok` mirrors `Ok`, `err`
  mirrors `Err` with the diagnostic message, and `oob` marks a Rust panic
  caused by an unchecked slice index (`input[i]` with `i` out of bounds).
* The storage struct `VM` holds the two capability addresses; methods that
  take `&self` are embedded as functions taking the `VM` value.
-/

def u256Size : Nat := 2 ^ 256

abbrev Addr := List Nat

/-- The all-zero 20-byte address, `Address::ZERO`. -/
def addressZero : Addr := List.replicate 20 0

/-- Result of a fallible computation: `ok` = Rust `Ok`, `err` = Rust `Err`
with its diagnostic message, `oob` = a Rust panic from an out-of-bounds
slice index. -/
inductive Outcome (α : Type) where
  | ok (v : α)
  | err (e : String)
  | oob
deriving Repr, DecidableEq

/-- An unchecked Rust slice index `input[i]`: panics (`oob`) when out of
bounds. -/
def readByte (input : List Nat) (i : Nat) : Outcome Nat :=
  if h : i < input.length then .ok input[i] else .oob

/-- Big-endian value of the `k` bytes `input[offset..offset+k]`
(missing bytes read as 0; callers establish bounds). -/
def beVal (input : List Nat) (offset : Nat) : Nat → Nat
  | 0 => 0
  | k + 1 => beVal input offset k * 256 + input.getD (offset + k) 0

/-- The storage struct `VM`: the two capability addresses. -/
structure VM where
  arb_price_consumer : Addr
  redot_pay_vault : Addr
deriving Repr, DecidableEq

/-- `VM::add`: wrapping 256-bit addition. -/
def VM.add (_self : VM) (a b : Nat) : Nat := (a + b) % u256Size

/-- `VM::mul`: wrapping 256-bit multiplication. -/
def VM.mul (_self : VM) (a b : Nat) : Nat := (a * b) % u256Size

/-- `VM::sub`: checked subtraction, `Err` on underflow. -/
def VM.sub (_self : VM) (a b : Nat) : Outcome Nat :=
  if a ≥ b then .ok (a - b) else .err "Subtraction underflow"

/-- `VM::div`: checked division, `Err` on zero divisor. -/
def VM.div (_self : VM) (a b : Nat) : Outcome Nat :=
  if b = 0 then .err "Division by zero" else .ok (a / b)

/-- `VM::special`: the constant 69. -/
def VM.special (_self : VM) : Nat := 69

/-- `VM::is_even`. -/
def VM.is_even (_self : VM) (a : Nat) : Bool := a % 2 = 0

/-- `VM::equal`. -/
def VM.equal (_self : VM) (a b : Nat) : Bool := a = b

/-- `VM::greater_than`. -/
def VM.greater_than (_self : VM) (a b : Nat) : Bool := a > b

/-- `VM::less_than`. -/
def VM.less_than (_self : VM) (a b : Nat) : Bool := a < b

/-- `VM::bytes_to_u256`: checks `offset + 32 > data.len()`, then decodes
32 big-endian bytes. -/
def VM.bytes_to_u256 (_self : VM) (data : List Nat) (offset : Nat) : Outcome Nat :=
  if offset + 32 > data.length then .err "Out of bounds"
  else .ok (beVal data offset 32)

/-- The 20-byte span `data[offset..offset+20]` as an address. -/
def addrBytes (data : List Nat) (offset : Nat) : Addr :=
  (List.range 20).map fun i => data.getD (offset + i) 0

/-- `VM::bytes_to_address`: checks `offset + 20 > data.len()`, then copies
20 bytes. -/
def VM.bytes_to_address (_self : VM) (data : List Nat) (offset : Nat) : Outcome Addr :=
  if offset + 20 > data.length then .err "Out of bounds"
  else .ok (addrBytes data offset)

/-- Pointwise update of a register bank at index `j`. -/
def updf {α : Type} (f : Nat → α) (j : Nat) (v : α) : Nat → α :=
  fun i => if i = j then v else f i

/-- The three register banks local to one `execute` call
(`buff_uint256`, `buff_bool`, `buff_address` in the source). -/
structure Banks where
  buff_uint256 : Nat → Nat
  buff_bool : Nat → Bool
  buff_address : Nat → Addr

/-- Banks as initialized at the top of `execute`: zeros, `false`s and zero
addresses. -/
def initBanks : Banks :=
  ⟨fun _ => 0, fun _ => false, fun _ => addressZero⟩

/-- The `for j in 0..uint256_count` loop of `execute`: reads consecutive
32-byte words via `bytes_to_u256` into slots `j, j+1, ...`, advancing the
offset by 32 each time. -/
def loadUints (self : VM) (input : List Nat) :
    Nat → Nat → Nat → (Nat → Nat) → Outcome ((Nat → Nat) × Nat)
  | 0, _, offset, bank => .ok (bank, offset)
  | n + 1, j, offset, bank =>
    match self.bytes_to_u256 input offset with
    | .ok v => loadUints self input n (j + 1) (offset + 32) (updf bank j v)
    | .err e => .err e
    | .oob => .oob

/-- The `for j in 0..bool_count` loop of `execute`: each byte is
truthy-decoded (`!= 0`) into slots `j, j+1, ...`. The read is an unchecked
index `input[offset]`. -/
def loadBools (input : List Nat) :
    Nat → Nat → Nat → (Nat → Bool) → Outcome ((Nat → Bool) × Nat)
  | 0, _, offset, bank => .ok (bank, offset)
  | n + 1, j, offset, bank =>
    match readByte input offset with
    | .ok v => loadBools input n (j + 1) (offset + 1) (updf bank j (v ≠ 0))
    | .err e => .err e
    | .oob => .oob

/-- The `for j in 0..address_count` loop of `execute`: reads consecutive
20-byte spans via `bytes_to_address` into slots `j, j+1, ...`. -/
def loadAddrs (self : VM) (input : List Nat) :
    Nat → Nat → Nat → (Nat → Addr) → Outcome ((Nat → Addr) × Nat)
  | 0, _, offset, bank => .ok (bank, offset)
  | n + 1, j, offset, bank =>
    match self.bytes_to_address input offset with
    | .ok v => loadAddrs self input n (j + 1) (offset + 20) (updf bank j v)
    | .err e => .err e
    | .oob => .oob

/-- The header-decoding phase of `execute` (lines 120-168 of `vm.rs`):
the initial length check, then the three count bytes and literal blocks.
Returns the populated banks and the offset where the instruction stream
begins.  The reads of the `bool_count` and `address_count` bytes are
unchecked indices, exactly as in the source. -/
def decodeProgram (self : VM) (input : List Nat) : Outcome (Banks × Nat) :=
  if input.length < 3 then .err "Input too short for all counts"
  else
    match readByte input 0 with
    | .err e => .err e
    | .oob => .oob
    | .ok uint256_count =>
      if input.length < 1 + uint256_count * 32 then .err "Not enough bytes for uint256s"
      else
        match loadUints self input uint256_count 0 1 initBanks.buff_uint256 with
        | .err e => .err e
        | .oob => .oob
        | .ok (ubank, offset1) =>
          match readByte input offset1 with
          | .err e => .err e
          | .oob => .oob
          | .ok bool_count =>
            if input.length < (offset1 + 1) + bool_count then .err "Not enough bytes for bools"
            else
              match loadBools input bool_count 0 (offset1 + 1) initBanks.buff_bool with
              | .err e => .err e
              | .oob => .oob
              | .ok (bbank, offset2) =>
                match readByte input offset2 with
                | .err e => .err e
                | .oob => .oob
                | .ok address_count =>
                  if input.length < (offset2 + 1) + address_count * 20 then
                    .err "Not enough bytes for addresses"
                  else
                    match loadAddrs self input address_count 0 (offset2 + 1)
                        initBanks.buff_address with
                    | .err e => .err e
                    | .oob => .oob
                    | .ok (abank, offset3) => .ok (⟨ubank, bbank, abank⟩, offset3)

/-- Result of one iteration of the dispatch loop: `next` carries the
updated banks and cursor, `ret` an early `return Ok(v)`, `err` an early
`return Err(e)`, `oob` a panic. -/
inductive StepResult where
  | next (banks : Banks) (offset : Nat)
  | ret (v : Nat)
  | err (e : String)
  | oob

/-- One iteration of the `while instr_offset < input.len()` loop of
`execute` (lines 173-368 of `vm.rs`): read the opcode byte, dispatch on
it, check the operand bytes are present, perform the operation.
`item_price` is the second argument of `execute`; `sender` is the
host-provided `msg::sender()`. -/
def step (self : VM) (input : List Nat) (item_price : Nat) (sender : Addr)
    (banks : Banks) (off : Nat) : StepResult :=
  match readByte input off with
  | .err e => .err e
  | .oob => .oob
  | .ok opcode =>
    match opcode with
    | 0 =>
      if (off + 1) + 3 > input.length then .err "Not enough bytes for add instruction"
      else
        let arg1 := input.getD (off + 1) 0
        let arg2 := input.getD (off + 2) 0
        let ret := input.getD (off + 3) 0
        .next { banks with
          buff_uint256 := updf banks.buff_uint256 ret
            (self.add (banks.buff_uint256 arg1) (banks.buff_uint256 arg2)) } (off + 4)
    | 1 =>
      if (off + 1) + 3 > input.length then .err "Not enough bytes for mul instruction"
      else
        let arg1 := input.getD (off + 1) 0
        let arg2 := input.getD (off + 2) 0
        let ret := input.getD (off + 3) 0
        .next { banks with
          buff_uint256 := updf banks.buff_uint256 ret
            (self.mul (banks.buff_uint256 arg1) (banks.buff_uint256 arg2)) } (off + 4)
    | 2 =>
      if (off + 1) + 2 > input.length then .err "Not enough bytes for isEven instruction"
      else
        let arg1 := input.getD (off + 1) 0
        let ret := input.getD (off + 2) 0
        .next { banks with
          buff_bool := updf banks.buff_bool ret
            (self.is_even (banks.buff_uint256 arg1)) } (off + 3)
    | 3 =>
      if (off + 1) + 1 > input.length then .err "Not enough bytes for special instruction"
      else
        let ret := input.getD (off + 1) 0
        .next { banks with
          buff_uint256 := updf banks.buff_uint256 ret self.special } (off + 2)
    | 4 =>
      if (off + 1) + 1 > input.length then .err "Not enough bytes for return instruction"
      else
        let ret_idx := input.getD (off + 1) 0
        .ret (banks.buff_uint256 ret_idx)
    | 5 =>
      if (off + 1) + 3 > input.length then .err "Not enough bytes for equal instruction"
      else
        let arg1 := input.getD (off + 1) 0
        let arg2 := input.getD (off + 2) 0
        let ret := input.getD (off + 3) 0
        .next { banks with
          buff_bool := updf banks.buff_bool ret
            (self.equal (banks.buff_uint256 arg1) (banks.buff_uint256 arg2)) } (off + 4)
    | 6 =>
      if (off + 1) + 3 > input.length then .err "Not enough bytes for greaterThan instruction"
      else
        let arg1 := input.getD (off + 1) 0
        let arg2 := input.getD (off + 2) 0
        let ret := input.getD (off + 3) 0
        .next { banks with
          buff_bool := updf banks.buff_bool ret
            (self.greater_than (banks.buff_uint256 arg1) (banks.buff_uint256 arg2)) } (off + 4)
    | 7 =>
      if (off + 1) + 3 > input.length then .err "Not enough bytes for lessThan instruction"
      else
        let arg1 := input.getD (off + 1) 0
        let arg2 := input.getD (off + 2) 0
        let ret := input.getD (off + 3) 0
        .next { banks with
          buff_bool := updf banks.buff_bool ret
            (self.less_than (banks.buff_uint256 arg1) (banks.buff_uint256 arg2)) } (off + 4)
    | 8 =>
      if (off + 1) + 1 > input.length then .err "Not enough bytes for return bool instruction"
      else
        let ret_idx := input.getD (off + 1) 0
        .ret (if banks.buff_bool ret_idx then 1 else 0)
    | 9 =>
      if (off + 1) + 1 > input.length then .err "Not enough bytes for getLatestPrice instruction"
      else
        let ret := input.getD (off + 1) 0
        .next { banks with
          buff_uint256 := updf banks.buff_uint256 ret 1000 } (off + 2)
    | 10 =>
      if (off + 1) + 1 > input.length then
        .err "Not enough bytes for getPriceFeedAddress instruction"
      else
        let ret := input.getD (off + 1) 0
        .next { banks with
          buff_address := updf banks.buff_address ret addressZero } (off + 2)
    | 30 =>
      if (off + 1) + 1 > input.length then .err "Not enough bytes for msg.sender instruction"
      else
        let ret := input.getD (off + 1) 0
        .next { banks with
          buff_address := updf banks.buff_address ret sender } (off + 2)
    | 31 =>
      if (off + 1) + 1 > input.length then .err "Not enough bytes for itemPrice instruction"
      else
        let ret := input.getD (off + 1) 0
        .next { banks with
          buff_uint256 := updf banks.buff_uint256 ret item_price } (off + 2)
    | 32 =>
      if (off + 1) + 3 > input.length then .err "Not enough bytes for sub instruction"
      else
        let arg1 := input.getD (off + 1) 0
        let arg2 := input.getD (off + 2) 0
        let ret := input.getD (off + 3) 0
        match self.sub (banks.buff_uint256 arg1) (banks.buff_uint256 arg2) with
        | .ok v =>
          .next { banks with buff_uint256 := updf banks.buff_uint256 ret v } (off + 4)
        | .err e => .err e
        | .oob => .oob
    | 33 =>
      if (off + 1) + 3 > input.length then .err "Not enough bytes for div instruction"
      else
        let arg1 := input.getD (off + 1) 0
        let arg2 := input.getD (off + 2) 0
        let ret := input.getD (off + 3) 0
        match self.div (banks.buff_uint256 arg1) (banks.buff_uint256 arg2) with
        | .ok v =>
          .next { banks with buff_uint256 := updf banks.buff_uint256 ret v } (off + 4)
        | .err e => .err e
        | .oob => .oob
    | _ => .err "Invalid opcode"

/-- When a dispatch iteration continues, the cursor strictly advances and
stays within the buffer. -/
theorem step_next_bound (self : VM) (input : List Nat) (item_price : Nat)
    (sender : Addr) (banks : Banks) (off : Nat) (banks' : Banks) (off' : Nat)
    (h : step self input item_price sender banks off = .next banks' off') :
    off < off' ∧ off' ≤ input.length := by
  unfold step at h
  unfold readByte at h
  repeat' (first | (split at h) | (simp only [] at h))
  all_goals (try (cases h))
  all_goals omega

/-- The `while instr_offset < input.len()` dispatch loop of `execute`:
iterates `step` until the cursor reaches the end of the buffer (default
result `Ok(0)`), a return opcode fires, or an error or panic occurs. -/
def execLoop (self : VM) (input : List Nat) (item_price : Nat) (sender : Addr)
    (banks : Banks) (off : Nat) : Outcome Nat :=
  if hlt : off < input.length then
    match hs : step self input item_price sender banks off with
    | .next banks' off' => execLoop self input item_price sender banks' off'
    | .ret v => .ok v
    | .err e => .err e
    | .oob => .oob
  else .ok 0
termination_by input.length - off
decreasing_by
  have := step_next_bound self input item_price sender banks off banks' off' hs
  omega

/-- `VM::execute` (lines 119-372 of `vm.rs`): decode the header into the
register banks, then run the dispatch loop on the instruction stream. -/
def VM.execute (self : VM) (input : List Nat) (item_price : Nat) (sender : Addr) :
    Outcome Nat :=
  match decodeProgram self input with
  | .ok (banks, offset) => execLoop self input item_price sender banks offset
  | .err e => .err e
  | .oob => .oob

/-- `execute` takes `&mut self`: its embedding returns the result together
with the final storage state.  The body of `execute` performs no storage
write (every method it calls takes `&self`), so the state it returns is
the one it received. -/
def VM.executeVM (self : VM) (input : List Nat) (item_price : Nat) (sender : Addr) :
    Outcome Nat × VM :=
  (self.execute input item_price sender, self)

/-- Unfolding equation for `execLoop` (it is defined by well-founded
recursion, so it does not reduce definitionally). -/
theorem execLoop_eq (self : VM) (input : List Nat) (item_price : Nat) (sender : Addr)
    (banks : Banks) (off : Nat) :
    execLoop self input item_price sender banks off =
      if off < input.length then
        match step self input item_price sender banks off with
        | .next banks' off' => execLoop self input item_price sender banks' off'
        | .ret v => .ok v
        | .err e => .err e
        | .oob => .oob
      else .ok 0 := by
  by_cases h : off < input.length
  · rw [execLoop, dif_pos h, if_pos h]
    cases hstep : step self input item_price sender banks off <;> rfl
  · rw [execLoop, dif_neg h, if_neg h]

/-- A concrete `VM` storage value (both capability addresses zero). -/
def vm0 : VM := ⟨List.replicate 20 0, List.replicate 20 0⟩

/-- The end-to-end example program: header `[1]`, the 32-byte big-endian
encoding of 5, `[0]`, `[0]`, then `add(0,0,1); returnUint(1)`. -/
def progC8 : List Nat :=
  [1] ++ (List.replicate 31 0 ++ [5]) ++ [0] ++ [0] ++ [0, 0, 0, 1] ++ [4, 1]

/-- Integer bank of `progC8` after decoding: slot 0 holds 5. -/
def uBankC8a : Nat → Nat := updf (fun _ => 0) 0 5

/-- Integer bank of `progC8` after `add(0,0,1)`: slot 1 holds 10. -/
def uBankC8b : Nat → Nat := updf uBankC8a 1 10

/-- Banks of `progC8` at the start of the instruction stream. -/
def banksC8a : Banks := ⟨uBankC8a, fun _ => false, fun _ => addressZero⟩

/-- Banks of `progC8` after the `add` instruction. -/
def banksC8b : Banks := ⟨uBankC8b, fun _ => false, fun _ => addressZero⟩

/-- Banks after one `special` step writing 69 into integer slot 0. -/
def banksW10 : Banks := { initBanks with buff_uint256 := updf initBanks.buff_uint256 0 69 }

/-- A concrete program with a valid header: one uint256 literal (7), one
boolean literal (9, truthy), one address literal (twenty 3-bytes). -/
def inpC2 : List Nat :=
  [1] ++ (List.replicate 31 0 ++ [7]) ++ [1] ++ [9] ++ [1] ++ List.replicate 20 3

/-- A checked `readByte` returns the byte. -/
theorem readByte_lt (input : List Nat) (i : Nat) (h : i < input.length) :
    readByte input i = .ok (input.getD i 0) := by
  unfold readByte
  rw [dif_pos h]
  congr 1
  exact (List.getD_eq_getElem input 0 h).symm

/-- `loadUints` on a buffer long enough for its block: consumes exactly
`n * 32` bytes and writes the big-endian words into slots `j..j+n`. -/
theorem loadUints_spec (self : VM) (input : List Nat) :
    ∀ (n j offset : Nat) (bank : Nat → Nat), offset + n * 32 ≤ input.length →
    ∃ bank', loadUints self input n j offset bank = .ok (bank', offset + n * 32) ∧
      ∀ i, bank' i =
        if j ≤ i ∧ i < j + n then beVal input (offset + (i - j) * 32) 32 else bank i := by
  intro n
  induction n with
  | zero =>
    intro j offset bank _
    exact ⟨bank, by simp [loadUints], fun i => by rw [if_neg (by omega)]⟩
  | succ n ih =>
    intro j offset bank h
    obtain ⟨bank', hrun, hchar⟩ :=
      ih (j + 1) (offset + 32) (updf bank j (beVal input offset 32)) (by omega)
    refine ⟨bank', ?_, fun i => ?_⟩
    · have harith : offset + 32 + n * 32 = offset + (n + 1) * 32 := by ring
      simp only [loadUints, VM.bytes_to_u256]
      rw [if_neg (by omega)]
      exact harith ▸ hrun
    · rw [hchar i]
      unfold updf
      by_cases h1 : j + 1 ≤ i ∧ i < j + 1 + n
      · rw [if_pos h1, if_pos (by omega)]
        have harg : offset + 32 + (i - (j + 1)) * 32 = offset + (i - j) * 32 := by omega
        rw [harg]
      · rw [if_neg h1]
        by_cases h2 : i = j
        · subst h2
          rw [if_pos rfl, if_pos (by omega)]
          simp
        · rw [if_neg h2, if_neg (by omega)]

/-- `loadBools` on a buffer long enough for its block: consumes exactly
`n` bytes and truthy-decodes them into slots `j..j+n`. -/
theorem loadBools_spec (input : List Nat) :
    ∀ (n j offset : Nat) (bank : Nat → Bool), offset + n ≤ input.length →
    ∃ bank', loadBools input n j offset bank = .ok (bank', offset + n) ∧
      ∀ i, bank' i =
        if j ≤ i ∧ i < j + n then decide (input.getD (offset + (i - j)) 0 ≠ 0)
        else bank i := by
  intro n
  induction n with
  | zero =>
    intro j offset bank _
    exact ⟨bank, by simp [loadBools], fun i => by rw [if_neg (by omega)]⟩
  | succ n ih =>
    intro j offset bank h
    obtain ⟨bank', hrun, hchar⟩ :=
      ih (j + 1) (offset + 1) (updf bank j (decide (input.getD offset 0 ≠ 0))) (by omega)
    refine ⟨bank', ?_, fun i => ?_⟩
    · have harith : offset + 1 + n = offset + (n + 1) := by ring
      simp only [loadBools]
      rw [readByte_lt input offset (by omega)]
      exact harith ▸ hrun
    · rw [hchar i]
      unfold updf
      by_cases h1 : j + 1 ≤ i ∧ i < j + 1 + n
      · rw [if_pos h1, if_pos (by omega)]
        have harg : offset + 1 + (i - (j + 1)) = offset + (i - j) := by omega
        rw [harg]
      · rw [if_neg h1]
        by_cases h2 : i = j
        · subst h2
          rw [if_pos rfl, if_pos (by omega)]
          simp
        · rw [if_neg h2, if_neg (by omega)]

/-- `loadAddrs` on a buffer long enough for its block: consumes exactly
`n * 20` bytes and copies the 20-byte spans into slots `j..j+n`. -/
theorem loadAddrs_spec (self : VM) (input : List Nat) :
    ∀ (n j offset : Nat) (bank : Nat → Addr), offset + n * 20 ≤ input.length →
    ∃ bank', loadAddrs self input n j offset bank = .ok (bank', offset + n * 20) ∧
      ∀ i, bank' i =
        if j ≤ i ∧ i < j + n then addrBytes input (offset + (i - j) * 20) else bank i := by
  intro n
  induction n with
  | zero =>
    intro j offset bank _
    exact ⟨bank, by simp [loadAddrs], fun i => by rw [if_neg (by omega)]⟩
  | succ n ih =>
    intro j offset bank h
    obtain ⟨bank', hrun, hchar⟩ :=
      ih (j + 1) (offset + 20) (updf bank j (addrBytes input offset)) (by omega)
    refine ⟨bank', ?_, fun i => ?_⟩
    · have harith : offset + 20 + n * 20 = offset + (n + 1) * 20 := by ring
      simp only [loadAddrs, VM.bytes_to_address]
      rw [if_neg (by omega)]
      exact harith ▸ hrun
    · rw [hchar i]
      unfold updf
      by_cases h1 : j + 1 ≤ i ∧ i < j + 1 + n
      · rw [if_pos h1, if_pos (by omega)]
        have harg : offset + 20 + (i - (j + 1)) * 20 = offset + (i - j) * 20 := by omega
        rw [harg]
      · rw [if_neg h1]
        by_cases h2 : i = j
        · subst h2
          rw [if_pos rfl, if_pos (by omega)]
          simp
        · rw [if_neg h2, if_neg (by omega)]

/-- C2: for every buffer whose header is valid (long enough for the three
count bytes and declared literal blocks), the decoder consumes exactly
`3 + 32*n_u + n_b + 20*n_a` bytes — the instruction stream begins at that
offset — populating integer slots `0..n_u` with big-endian 32-byte words,
boolean slots `0..n_b` with truthy-decoded bytes, and address slots
`0..n_a` with 20-byte spans, in that order. -/
theorem claim_C2 (self : VM) (input : List Nat) (n_u n_b n_a : Nat)
    (hu : n_u = input.getD 0 0)
    (hb : n_b = input.getD (1 + n_u * 32) 0)
    (ha : n_a = input.getD (2 + n_u * 32 + n_b) 0)
    (hlen : 3 + n_u * 32 + n_b + n_a * 20 ≤ input.length) :
    ∃ banks : Banks,
      decodeProgram self input = .ok (banks, 3 + n_u * 32 + n_b + n_a * 20) ∧
      (∀ i, i < n_u → banks.buff_uint256 i = beVal input (1 + i * 32) 32) ∧
      (∀ i, i < n_b → banks.buff_bool i = decide (input.getD (2 + n_u * 32 + i) 0 ≠ 0)) ∧
      (∀ i, i < n_a → banks.buff_address i = addrBytes input (3 + n_u * 32 + n_b + i * 20)) := by
  have hlen3 : ¬ input.length < 3 := by omega
  have hulen : ¬ input.length < 1 + n_u * 32 := by omega
  obtain ⟨ubank, hurun, huchar⟩ :=
    loadUints_spec self input n_u 0 1 initBanks.buff_uint256 (by omega)
  have hb' : input.getD (1 + n_u * 32) 0 = n_b := hb.symm
  have hblen : ¬ input.length < 1 + n_u * 32 + 1 + n_b := by omega
  obtain ⟨bbank, hbrun, hbchar⟩ :=
    loadBools_spec input n_b 0 (1 + n_u * 32 + 1) initBanks.buff_bool (by omega)
  have ha' : input.getD (1 + n_u * 32 + 1 + n_b) 0 = n_a := by
    rw [ha]
    congr 1
    ring
  have halen : ¬ input.length < 1 + n_u * 32 + 1 + n_b + 1 + n_a * 20 := by omega
  obtain ⟨abank, harun, hachar⟩ :=
    loadAddrs_spec self input n_a 0 (1 + n_u * 32 + 1 + n_b + 1) initBanks.buff_address
      (by omega)
  have hoff : 1 + n_u * 32 + 1 + n_b + 1 + n_a * 20 = 3 + n_u * 32 + n_b + n_a * 20 := by
    ring
  refine ⟨⟨ubank, bbank, abank⟩, ?_, fun i hi => ?_, fun i hi => ?_, fun i hi => ?_⟩
  · simp only [decodeProgram, if_neg hlen3, readByte_lt input 0 (by omega), ← hu,
      if_neg hulen, hurun, readByte_lt input (1 + n_u * 32) (by omega), hb',
      if_neg hblen, hbrun, readByte_lt input (1 + n_u * 32 + 1 + n_b) (by omega), ha',
      if_neg halen, harun, hoff]
    rw [if_neg (by omega)]
  · show ubank i = beVal input (1 + i * 32) 32
    rw [huchar i, if_pos ⟨Nat.zero_le i, by omega⟩,
      show 1 + (i - 0) * 32 = 1 + i * 32 by omega]
  · show bbank i = decide (input.getD (2 + n_u * 32 + i) 0 ≠ 0)
    rw [hbchar i, if_pos ⟨Nat.zero_le i, by omega⟩,
      show 1 + n_u * 32 + 1 + (i - 0) = 2 + n_u * 32 + i by omega]
  · show abank i = addrBytes input (3 + n_u * 32 + n_b + i * 20)
    rw [hachar i, if_pos ⟨Nat.zero_le i, by omega⟩,
      show 1 + n_u * 32 + 1 + n_b + 1 + (i - 0) * 20 = 3 + n_u * 32 + n_b + i * 20 by omega]

/-- C2 witness: a concrete 56-byte buffer with one literal of each kind
decodes at offset `3 + 1*32 + 1 + 1*20 = 56`. -/
theorem claim_C2_witness :
    ∃ banks : Banks,
      decodeProgram vm0 inpC2 = .ok (banks, 3 + 1 * 32 + 1 + 1 * 20) ∧
      (∀ i, i < 1 → banks.buff_uint256 i = beVal inpC2 (1 + i * 32) 32) ∧
      (∀ i, i < 1 → banks.buff_bool i = decide (inpC2.getD (2 + 1 * 32 + i) 0 ≠ 0)) ∧
      (∀ i, i < 1 → banks.buff_address i = addrBytes inpC2 (3 + 1 * 32 + 1 + i * 20)) :=
  claim_C2 vm0 inpC2 1 1 1 (by decide) (by decide) (by decide) (by decide)

/-- C1: refuted — the claim says `execute` never reads past the buffer,
but on the 3-byte input `[0, 1, 0]` (header declaring one boolean literal)
the read of the `address_count` byte is an unchecked index at position 3,
past the end of the buffer: the execution panics (`oob`) instead of
returning an `InsufficientData` error. -/
theorem claim_C1 (self : VM) (item_price : Nat) (sender : Addr) :
    self.execute [0, 1, 0] item_price sender = .oob := rfl

/-- C3: `sub(a,b)` fails (with the underflow error) iff `a < b`, and for
`a ≥ b` returns `r` with `r + b = a`. -/
theorem claim_C3 (self : VM) (a b : Nat) (_ha : a < u256Size) (_hb : b < u256Size) :
    ((self.sub a b = .err "Subtraction underflow") ↔ a < b) ∧
    (b ≤ a → ∃ r, self.sub a b = .ok r ∧ r + b = a) := by
  unfold VM.sub
  split_ifs with h
  · exact ⟨⟨fun hf => absurd hf (by simp), fun hlt => absurd hlt (by omega)⟩,
      fun _ => ⟨a - b, rfl, by omega⟩⟩
  · exact ⟨⟨fun _ => by omega, fun _ => rfl⟩, fun hba => absurd hba (by omega)⟩

/-- C3 witness at `a = 5`, `b = 3`. -/
theorem claim_C3_witness :
    ((vm0.sub 5 3 = .err "Subtraction underflow") ↔ 5 < 3) ∧
    (3 ≤ 5 → ∃ r, vm0.sub 5 3 = .ok r ∧ r + 3 = 5) :=
  claim_C3 vm0 5 3 (by decide) (by decide)

/-- C4: `div(a,b)` fails (with the division-by-zero error) iff `b = 0`,
and for `b ≠ 0` returns the truncating quotient `q` with
`q * b + a % b = a`. -/
theorem claim_C4 (self : VM) (a b : Nat) (_ha : a < u256Size) (_hb : b < u256Size) :
    ((self.div a b = .err "Division by zero") ↔ b = 0) ∧
    (b ≠ 0 → ∃ q, self.div a b = .ok q ∧ q * b + a % b = a) := by
  unfold VM.div
  split_ifs with h
  · exact ⟨⟨fun _ => h, fun _ => rfl⟩, fun hb0 => absurd h hb0⟩
  · refine ⟨⟨fun hf => absurd hf (by simp), fun hb0 => absurd hb0 h⟩, fun _ => ⟨a / b, rfl, ?_⟩⟩
    rw [Nat.mul_comm]
    exact Nat.div_add_mod a b

/-- C4 witness at `a = 7`, `b = 2`. -/
theorem claim_C4_witness :
    ((vm0.div 7 2 = .err "Division by zero") ↔ 2 = 0) ∧
    (2 ≠ 0 → ∃ q, vm0.div 7 2 = .ok q ∧ q * 2 + 7 % 2 = 7) :=
  claim_C4 vm0 7 2 (by decide) (by decide)

/-- C6: `add` and `mul` are commutative and associative modulo `2^256`
and never error (they are total functions into values). -/
theorem claim_C6 (self : VM) (a b c : Nat) :
    self.add a b = self.add b a ∧ self.mul a b = self.mul b a ∧
    self.add (self.add a b) c = self.add a (self.add b c) ∧
    self.mul (self.mul a b) c = self.mul a (self.mul b c) := by
  unfold VM.add VM.mul
  refine ⟨by rw [Nat.add_comm], by rw [Nat.mul_comm], ?_, ?_⟩
  · rw [Nat.mod_add_mod, Nat.add_mod_mod, Nat.add_assoc]
  · have h1 : a * b % u256Size * c % u256Size = a * b * c % u256Size :=
      (Nat.mod_modEq (a * b) u256Size).mul_right c
    have h2 : a * (b * c % u256Size) % u256Size = a * (b * c) % u256Size :=
      (Nat.mod_modEq (b * c) u256Size).mul_left a
    rw [h1, h2, Nat.mul_assoc]

/-- C5: any opcode byte outside the recognized table (the reserved range
11-29 and everything from 34 up) makes the dispatch loop stop with
`Invalid opcode`, whatever the rest of the buffer holds. -/
theorem claim_C5 (self : VM) (input : List Nat) (item_price : Nat) (sender : Addr)
    (banks : Banks) (off : Nat) (c : Nat)
    (hoff : off < input.length) (hc : input.getD off 0 = c)
    (hrange : (11 ≤ c ∧ c ≤ 29) ∨ 34 ≤ c) :
    execLoop self input item_price sender banks off = .err "Invalid opcode" := by
  have hstep : step self input item_price sender banks off = .err "Invalid opcode" := by
    unfold step
    rw [readByte_lt input off hoff, hc]
    rcases hrange with ⟨h1, h2⟩ | h1
    · interval_cases c <;> rfl
    · obtain ⟨k, rfl⟩ : ∃ k, c = k + 34 := ⟨c - 34, by omega⟩
      rfl
  rw [execLoop_eq, if_pos hoff, hstep]

/-- C5 witness: opcode byte 99 right after an empty header. -/
theorem claim_C5_witness :
    execLoop vm0 [0, 0, 0, 99] 0 addressZero initBanks 3 = .err "Invalid opcode" :=
  claim_C5 vm0 [0, 0, 0, 99] 0 addressZero initBanks 3 99 (by decide) (by decide)
    (Or.inr (by decide))

/-- C7: exhausting the instruction stream without a return opcode yields
the default `Ok(0)`; the 3-byte all-zero buffer is a valid input returning
0; any input shorter than 3 bytes fails with the too-short error. -/
theorem claim_C7 :
    (∀ (self : VM) (input : List Nat) (item_price : Nat) (sender : Addr)
        (banks : Banks) (off : Nat), input.length ≤ off →
        execLoop self input item_price sender banks off = .ok 0) ∧
    (∀ (self : VM) (item_price : Nat) (sender : Addr),
        self.execute [0, 0, 0] item_price sender = .ok 0) ∧
    (∀ (self : VM) (input : List Nat) (item_price : Nat) (sender : Addr),
        input.length < 3 →
        self.execute input item_price sender = .err "Input too short for all counts") := by
  refine ⟨fun self input p s banks off h => ?_, fun self p s => ?_,
    fun self input p s h => ?_⟩
  · rw [execLoop_eq, if_neg (by omega)]
  · have h0 : self.execute [0, 0, 0] p s = execLoop self [0, 0, 0] p s initBanks 3 := rfl
    rw [h0, execLoop_eq]
    rfl
  · unfold VM.execute decodeProgram
    rw [if_pos h]

/-- C7 witness: end-of-buffer default, the minimal program, and a 1-byte
input. -/
theorem claim_C7_witness :
    execLoop vm0 [5] 0 addressZero initBanks 1 = .ok 0 ∧
    vm0.execute [0, 0, 0] 0 addressZero = .ok 0 ∧
    vm0.execute [7] 0 addressZero = .err "Input too short for all counts" :=
  ⟨claim_C7.1 vm0 [5] 0 addressZero initBanks 1 (by decide),
   claim_C7.2.1 vm0 0 addressZero,
   claim_C7.2.2 vm0 [7] 0 addressZero (by decide)⟩

/-- C8: the program with header `[1]`, the 32-byte big-endian encoding of
5, `[0]`, `[0]`, then `add(0,0,1); returnUint(1)` returns `Ok(10)` for
every item price (and caller). -/
theorem claim_C8 (item_price : Nat) (sender : Addr) :
    vm0.execute progC8 item_price sender = .ok 10 := by
  calc vm0.execute progC8 item_price sender
      = execLoop vm0 progC8 item_price sender banksC8a 35 := rfl
    _ = execLoop vm0 progC8 item_price sender banksC8b 39 := by
        rw [execLoop_eq]
        rfl
    _ = .ok 10 := by
        rw [execLoop_eq]
        rfl

/-- C9: `execute` leaves the two stored capability addresses unchanged on
every call, and as soon as one dispatch iteration reports an error the
loop's result is exactly that error — nothing written earlier escapes. -/
theorem claim_C9 :
    (∀ (self : VM) (input : List Nat) (item_price : Nat) (sender : Addr),
        (self.executeVM input item_price sender).2 = self) ∧
    (∀ (self : VM) (input : List Nat) (item_price : Nat) (sender : Addr)
        (banks : Banks) (off : Nat) (e : String),
        step self input item_price sender banks off = .err e →
        execLoop self input item_price sender banks off = .err e) := by
  refine ⟨fun _ _ _ _ => rfl, fun self input p s banks off e h => ?_⟩
  by_cases hoff : off < input.length
  · rw [execLoop_eq, if_pos hoff, h]
  · exfalso
    unfold step at h
    unfold readByte at h
    rw [dif_neg hoff] at h
    cases h

/-- C9 witness: a division-by-zero program aborts with exactly that
error, and storage is returned unchanged. -/
theorem claim_C9_witness :
    (vm0.executeVM [33, 0, 0, 0] 5 addressZero).2 = vm0 ∧
    execLoop vm0 [33, 0, 0, 0] 5 addressZero initBanks 0 = .err "Division by zero" :=
  ⟨claim_C9.1 vm0 [33, 0, 0, 0] 5 addressZero,
   claim_C9.2 vm0 [33, 0, 0, 0] 5 addressZero initBanks 0 "Division by zero" rfl⟩

/-- C10: every continuing dispatch iteration advances the cursor by at
least one byte and never past the end of the buffer, so the loop runs at
most `input.length` iterations (this bound is what justifies the
well-founded definition of `execLoop`, making the embedded `execute`
total). -/
theorem claim_C10 (self : VM) (input : List Nat) (item_price : Nat) (sender : Addr)
    (banks : Banks) (off : Nat) (banks' : Banks) (off' : Nat)
    (h : step self input item_price sender banks off = .next banks' off') :
    off + 1 ≤ off' ∧ off' ≤ input.length := by
  have hb := step_next_bound self input item_price sender banks off banks' off' h
  omega

/-- C10 witness: one `special` instruction advances the cursor from 0 to
2 in a 2-byte stream. -/
theorem claim_C10_witness :
    0 + 1 ≤ 2 ∧ 2 ≤ ([3, 0] : List Nat).length :=
  claim_C10 vm0 [3, 0] 0 addressZero initBanks 0 banksW10 2 rfl
